import Mathlib

/-!
Shallow embedding of `src/metrics/argumentative_metrics.py`: circularity,
dialectical acceptability and dialectical faithfulness metrics for
argumentative explanations, together with theorems settling the frozen
claims about them.

Python conventions mirrored here:
* `list.index(x)` raises `ValueError` when `x` is absent; fallible code is
  embedded in `Except PyErr`.
* Integer/float division by zero raises `ZeroDivisionError`.
* The `visited` / `stack` lists of the cycle DFS are mutated in place and
  shared across all top-level DFS root invocations; the embedding threads
  them explicitly as functions `Nat → Bool` (all indices used by the code
  are produced by `list.index` and are therefore in range, so a total
  function is a faithful model of the fixed-length Python list).
* Numbers are embedded as `ℚ` (the Python code performs only exact
  arithmetic on the inputs: sums, counts and divisions).
-/

/-- Python exception classes raised by the module: `ValueError` from
`list.index` on a missing element, `ZeroDivisionError` from `x / 0`. -/
inductive PyErr where
  | valueError
  | zeroDivisionError
  deriving DecidableEq

instance {ε α : Type} [DecidableEq ε] [DecidableEq α] : DecidableEq (Except ε α) := fun x y =>
  match x, y with
  | Except.ok a, Except.ok b =>
    if h : a = b then isTrue (by rw [h]) else isFalse (by intro hh; cases hh; exact h rfl)
  | Except.ok _, Except.error _ => isFalse (by intro hh; cases hh)
  | Except.error _, Except.ok _ => isFalse (by intro hh; cases hh)
  | Except.error e, Except.error f =>
    if h : e = f then isTrue (by rw [h]) else isFalse (by intro hh; cases hh; exact h rfl)

/-- Index of the first occurrence of `x`, as Python `list.index` computes it,
`none` when absent. -/
def idxOf? {α : Type} [DecidableEq α] : List α → α → Option Nat
  | [], _ => none
  | a :: rest, x => if a = x then some 0 else (idxOf? rest x).map (· + 1)

/-- Python `args.index(x)`: position of the first occurrence, `ValueError`
when `x` is not in the list. -/
def pyIndex {α : Type} [DecidableEq α] (xs : List α) (x : α) : Except PyErr Nat :=
  match idxOf? xs x with
  | some i => Except.ok i
  | none => Except.error PyErr.valueError

/-- Python `af[i].append(j)` on a dict of lists keyed by node index. -/
def afAppend (af : Nat → List Nat) (i j : Nat) : Nat → List Nat :=
  fun k => if k = i then af i ++ [j] else af k

/-- One iteration of the edge-insertion loops of `compute_circularity`:
`af[args.index(p[0])].append(args.index(p[1]))`.  Both the attack loop and
the support loop insert the pair in this orientation. -/
def addEdge {α : Type} [DecidableEq α] (args : List α) (af : Nat → List Nat)
    (p : α × α) : Except PyErr (Nat → List Nat) :=
  match pyIndex args p.1, pyIndex args p.2 with
  | Except.ok i, Except.ok j => Except.ok (afAppend af i j)
  | Except.error e, _ => Except.error e
  | _, Except.error e => Except.error e

/-- Folding `addEdge` over a list of pairs, stopping at the first error,
as the Python `for` loop does when an exception propagates. -/
def addEdges {α : Type} [DecidableEq α] (args : List α) :
    List (α × α) → (Nat → List Nat) → Except PyErr (Nat → List Nat)
  | [], af => Except.ok af
  | p :: rest, af =>
    match addEdge args af p with
    | Except.ok af' => addEdges args rest af'
    | Except.error e => Except.error e

/-- The graph built by `compute_circularity`: all attack pairs
`(attacker, attacked)` as edges `attacker → attacked`, then all support
pairs `(supported, supporter)` as edges `supported → supporter`. -/
def buildAF {α : Type} [DecidableEq α] (args : List α)
    (attack_relations support_relations : List (α × α)) :
    Except PyErr (Nat → List Nat) :=
  match addEdges args attack_relations (fun _ => []) with
  | Except.ok af => addEdges args support_relations af
  | Except.error e => Except.error e

/-- Pointwise update of a boolean array modelled as a function:
`v[i] = b`. -/
def setB (f : Nat → Bool) (i : Nat) (b : Bool) : Nat → Bool :=
  fun k => if k = i then b else f k

/-- The `for arg in arg_framework[start]` loop of `_dfs_cycle`: on a
neighbour still on the recursion stack return `True` at once (leaving the
stack marks as they are), on an unvisited neighbour recurse via `rec`. -/
def dfsLoop (rec : Nat → (Nat → Bool) → (Nat → Bool) → Bool × (Nat → Bool) × (Nat → Bool)) :
    List Nat → (Nat → Bool) → (Nat → Bool) → Bool × (Nat → Bool) × (Nat → Bool)
  | [], visited, stack => (false, visited, stack)
  | arg :: rest, visited, stack =>
    if visited arg then
      if stack arg then (true, visited, stack)
      else dfsLoop rec rest visited stack
    else
      match rec arg visited stack with
      | (true, v, s) => (true, v, s)
      | (false, v, s) => dfsLoop rec rest v s

/-- Embedding of `_dfs_cycle(arg_framework, start, visited, stack)`.  The recursion
depth of the Python function is bounded by the number of nodes (every
nested call targets a node unvisited at call time and marks it visited),
so running the embedding with fuel `num_nodes + 1` never reaches the
fuel-exhaustion branch on the inputs the module produces. -/
def dfsCycle (af : Nat → List Nat) :
    Nat → Nat → (Nat → Bool) → (Nat → Bool) → Bool × (Nat → Bool) × (Nat → Bool)
  | 0 => fun _ visited stack => (false, visited, stack)
  | fuel + 1 => fun start visited stack =>
    match dfsLoop (dfsCycle af fuel) (af start) (setB visited start true) (setB stack start true) with
    | (true, v, s) => (true, v, s)
    | (false, v, s) => (false, v, setB s start false)

/-- The scoring loop of `compute_circularity`: for each node in index
order, if not yet visited run the DFS from it and count the invocations
that report a cycle.  `visited` and `stack` are shared across iterations
exactly as the Python lists are. -/
def circScore (dfs : Nat → (Nat → Bool) → (Nat → Bool) → Bool × (Nat → Bool) × (Nat → Bool)) :
    List Nat → (Nat → Bool) → (Nat → Bool) → Nat → Nat
  | [], _, _, score => score
  | node :: rest, visited, stack, score =>
    if visited node then circScore dfs rest visited stack score
    else
      match dfs node visited stack with
      | (found, v, s) => circScore dfs rest v s (if found then score + 1 else score)

/-- Embedding of `compute_circularity(args, attack_relations, support_relations)`. -/
def compute_circularity {α : Type} [DecidableEq α] (args : List α)
    (attack_relations support_relations : List (α × α)) : Except PyErr ℚ :=
  let num_nodes := args.length
  match buildAF args attack_relations support_relations with
  | Except.error e => Except.error e
  | Except.ok af =>
    let score := circScore (dfsCycle af (num_nodes + 1)) (List.range num_nodes)
      (fun _ => false) (fun _ => false) 0
    if num_nodes = 0 then Except.error PyErr.zeroDivisionError
    else Except.ok ((score : ℚ) / (num_nodes : ℚ))

/-- The count the spec describes for circularity: over the graph of all
attack edges plus all support edges reversed, iterate the nodes in index
order, start a DFS only from not-yet-visited nodes, and count the
top-level DFS root invocations that detect at least one cycle. -/
def cycleRootCount {α : Type} [DecidableEq α] (args : List α)
    (attack_relations support_relations : List (α × α)) : Except PyErr Nat :=
  match buildAF args attack_relations support_relations with
  | Except.error e => Except.error e
  | Except.ok af =>
    Except.ok (circScore (dfsCycle af (args.length + 1)) (List.range args.length)
      (fun _ => false) (fun _ => false) 0)

/-- One iteration of the attack-indexing loop of
`compute_dialectical_acceptability`:
`af_attacks[args.index(attacked)].append(args.index(attacker))`, then
`is_yhat_attacked` is set when `attacked in args_y_hat`. -/
def addAttack {α : Type} [DecidableEq α] (args args_y_hat : List α)
    (st : (Nat → List Nat) × Bool) (p : α × α) :
    Except PyErr ((Nat → List Nat) × Bool) :=
  match pyIndex args p.2, pyIndex args p.1 with
  | Except.ok j, Except.ok i =>
    Except.ok (afAppend st.1 j i, st.2 || decide (p.2 ∈ args_y_hat))
  | Except.error e, _ => Except.error e
  | _, Except.error e => Except.error e

/-- The attack-indexing loop of `compute_dialectical_acceptability`,
carrying the reverse-attack index and the `is_yhat_attacked` flag. -/
def buildAttacks {α : Type} [DecidableEq α] (args args_y_hat : List α) :
    List (α × α) → ((Nat → List Nat) × Bool) → Except PyErr ((Nat → List Nat) × Bool)
  | [], st => Except.ok st
  | p :: rest, st =>
    match addAttack args args_y_hat st p with
    | Except.ok st' => buildAttacks args args_y_hat rest st'
    | Except.error e => Except.error e

/-- The per-argument score of `compute_dialectical_acceptability`: `1` when
the attacker list is empty, otherwise the number of attackers that are
themselves attacked divided by the number of attackers. -/
def localScore (af_attacks : Nat → List Nat) (attackers : List Nat) : ℚ :=
  if attackers = [] then 1
  else ((attackers.countP (fun j => decide (af_attacks j ≠ []))) : ℚ) / ((attackers.length : ℚ))

/-- The accumulation loop of `compute_dialectical_acceptability` over
`args_y_hat`: `score += score_a_i`, where looking up `args.index(arg_i)`
can raise `ValueError`. -/
def accScore {α : Type} [DecidableEq α] (args : List α) (af_attacks : Nat → List Nat) :
    List α → ℚ → Except PyErr ℚ
  | [], score => Except.ok score
  | a :: rest, score =>
    match pyIndex args a with
    | Except.ok i => accScore args af_attacks rest (score + localScore af_attacks (af_attacks i))
    | Except.error e => Except.error e

/-- Embedding of `compute_dialectical_acceptability(args, attack_relations, args_y_hat)`. -/
def compute_dialectical_acceptability {α : Type} [DecidableEq α] (args : List α)
    (attack_relations : List (α × α)) (args_y_hat : List α) : Except PyErr ℚ :=
  let num_nodes := args.length
  match buildAttacks args args_y_hat attack_relations ((fun _ => []), false) with
  | Except.error e => Except.error e
  | Except.ok (af_attacks, is_yhat_attacked) =>
    if is_yhat_attacked then
      match accScore args af_attacks args_y_hat 0 with
      | Except.error e => Except.error e
      | Except.ok score =>
        if num_nodes = 0 then Except.error PyErr.zeroDivisionError
        else Except.ok (score / (num_nodes : ℚ))
    else Except.ok 1

/-- The list of local scores of `args_y_hat` members as the spec words
them: `1` for an argument with no attackers, otherwise the fraction of
its attackers that themselves have at least one attacker. -/
def localScores {α : Type} [DecidableEq α] (args : List α) (af_attacks : Nat → List Nat) :
    List α → Except PyErr (List ℚ)
  | [] => Except.ok []
  | a :: rest =>
    match pyIndex args a with
    | Except.ok i =>
      match localScores args af_attacks rest with
      | Except.ok others => Except.ok (localScore af_attacks (af_attacks i) :: others)
      | Except.error e => Except.error e
    | Except.error e => Except.error e

/-- Dialectical acceptability as the spec words it: the sum over
`args_y_hat` of the local scores, divided by the TOTAL argument count. -/
def acceptabilitySpec {α : Type} [DecidableEq α] (args : List α)
    (attack_relations : List (α × α)) (args_y_hat : List α) : Except PyErr ℚ :=
  match buildAttacks args args_y_hat attack_relations ((fun _ => []), false) with
  | Except.error e => Except.error e
  | Except.ok (af_attacks, _) =>
    match localScores args af_attacks args_y_hat with
    | Except.error e => Except.error e
    | Except.ok ls =>
      if args.length = 0 then Except.error PyErr.zeroDivisionError
      else Except.ok (ls.sum / (args.length : ℚ))

/-- An argument record as the faithfulness metric consumes it: a dict with
keys `id`, `conclusion` and `strength`. -/
structure Argument (α : Type) where
  id : α
  conclusion : String
  strength : ℚ
  deriving DecidableEq

/-- Embedding of `get_arguments_for_conclusion(args, conclusion)`. -/
def get_arguments_for_conclusion {α : Type} (args : List (Argument α))
    (conclusion : String) : List (Argument α) :=
  args.filter (fun arg => decide (arg.conclusion = conclusion))

/-- Embedding of `get_attackers(args, attack_relations, arg_id)`: the arguments whose
`(id, arg_id)` pair occurs among the attack relations, in the order they
appear in `args`. -/
def get_attackers {α : Type} [DecidableEq α] (args : List (Argument α))
    (attack_relations : List (α × α)) (arg_id : α) : List (Argument α) :=
  args.filter (fun attacker => decide ((attacker.id, arg_id) ∈ attack_relations))

/-- Embedding of `get_dialectical_strength(argument)`. -/
def get_dialectical_strength {α : Type} (argument : Argument α) : ℚ :=
  argument.strength

/-- Embedding of `compute_dialectical_faithfulness(args, attack_relations,
support_relations, args_y_hat, top_confidence, high_confidence,
model_predicted_label, model_confidence)`.  Each Python `for` loop that
returns `False` on the first violating pair is embedded as `List.all` of
the negated condition, which computes the same boolean. -/
def compute_dialectical_faithfulness {α : Type} [DecidableEq α] (args : List (Argument α))
    (attack_relations support_relations : List (α × α)) (args_y_hat : List (Argument α))
    (top_confidence high_confidence : ℚ) (model_predicted_label : String)
    (model_confidence : ℚ) : Bool :=
  let predicted_label := model_predicted_label
  let confidence := model_confidence
  let arguments_for_predicted := args_y_hat.filter (fun arg => decide (arg.conclusion = predicted_label))
  if confidence ≥ top_confidence then
    arguments_for_predicted.all (fun arg =>
      (get_attackers args attack_relations arg.id).all (fun attacker =>
        ! decide (get_dialectical_strength attacker ≥ get_dialectical_strength arg)))
  else if confidence ≥ high_confidence then
    arguments_for_predicted.all (fun arg =>
      (get_attackers args attack_relations arg.id).all (fun attacker =>
        ! decide (get_dialectical_strength attacker > get_dialectical_strength arg)))
  else
    arguments_for_predicted.all (fun arg =>
      if get_dialectical_strength arg > (1 / 2 : ℚ) then
        (get_attackers args attack_relations arg.id).all (fun attacker =>
          ! decide (get_dialectical_strength attacker ≤ get_dialectical_strength arg))
      else true)

/-- Rewriting under the `Except.ok` constructor. -/
theorem okCongr {x y : ℚ} (h : x = y) : (Except.ok x : Except PyErr ℚ) = Except.ok y := by
  rw [h]

theorem idxOf?_eq_none {α : Type} [DecidableEq α] {xs : List α} {x : α} (h : x ∉ xs) :
    idxOf? xs x = none := by
  induction xs with
  | nil => rfl
  | cons a rest ih =>
    have ha : ¬ a = x := fun hh => h (hh ▸ List.mem_cons_self a rest)
    have hr : x ∉ rest := fun hh => h (List.mem_cons_of_mem a hh)
    simp [idxOf?, ha, ih hr]

theorem idxOf?_mem {α : Type} [DecidableEq α] {xs : List α} {x : α} (h : x ∈ xs) :
    ∃ i, idxOf? xs x = some i := by
  induction xs with
  | nil => cases h
  | cons a rest ih =>
    by_cases ha : a = x
    · exact ⟨0, by simp [idxOf?, ha]⟩
    · have hr : x ∈ rest := by
        rcases List.mem_cons.mp h with h1 | h1
        · exact absurd h1.symm ha
        · exact h1
      obtain ⟨i, hi⟩ := ih hr
      exact ⟨i + 1, by simp [idxOf?, ha, hi]⟩

theorem pyIndex_mem {α : Type} [DecidableEq α] {xs : List α} {x : α} (h : x ∈ xs) :
    ∃ i, pyIndex xs x = Except.ok i := by
  obtain ⟨i, hi⟩ := idxOf?_mem h
  exact ⟨i, by simp [pyIndex, hi]⟩

theorem pyIndex_not_mem {α : Type} [DecidableEq α] {xs : List α} {x : α} (h : x ∉ xs) :
    pyIndex xs x = Except.error PyErr.valueError := by
  simp [pyIndex, idxOf?_eq_none h]

/-- Appending edges `j → i` then `i → j` builds the same adjacency as
appending `i → j` then `j → i`: the two insertions touch different
adjacency lists unless `i = j`, in which case both orders append the same
value twice. -/
theorem afAppend_swap (f : Nat → List Nat) (i j : Nat) :
    afAppend (afAppend f j i) i j = afAppend (afAppend f i j) j i := by
  by_cases hij : i = j
  · subst hij; rfl
  · have hji : ¬ j = i := fun h => hij h.symm
    funext k
    by_cases hki : k = i
    · subst hki; simp [afAppend, hij, hji]
    · by_cases hkj : k = j
      · subst hkj; simp [afAppend, hij, hji, hki]
      · simp [afAppend, hki, hkj]

/-- A support pair `(A, B)` together with an attack pair `(B, A)` builds
the same graph as the attack pairs `(A, B), (B, A)`. -/
theorem buildAF_swap {α : Type} [DecidableEq α] (args : List α) (A B : α) :
    buildAF args [(B, A)] [(A, B)] = buildAF args [(A, B), (B, A)] [] := by
  rcases hA : idxOf? args A with _ | i <;> rcases hB : idxOf? args B with _ | j <;>
    simp [buildAF, addEdges, addEdge, pyIndex, hA, hB]
  exact afAppend_swap (fun _ => []) i j

/-- On a graph with no edges the DFS visits only its start node and
reports no cycle. -/
theorem dfsCycle_nilAf (fuel start : Nat) (v s : Nat → Bool) :
    dfsCycle (fun _ => []) (fuel + 1) start v s
      = (false, setB v start true, setB (setB s start true) start false) := rfl

/-- On a graph with no edges the scoring loop leaves the score unchanged. -/
theorem circScore_nilAf (fuel : Nat) :
    ∀ (nodes : List Nat) (v s : Nat → Bool) (score : Nat),
      circScore (dfsCycle (fun _ => []) (fuel + 1)) nodes v s score = score := by
  intro nodes
  induction nodes with
  | nil => intro v s score; rfl
  | cons node rest ih =>
    intro v s score
    by_cases hv : v node
    · simp [circScore, hv, ih]
    · simp [circScore, hv, dfsCycle_nilAf, ih]

/-- Claim C1: for every non-empty argument list, `compute_circularity`
returns the number of top-level DFS root invocations that detect at least
one cycle (iterating nodes in index order, starting a DFS only from
not-yet-visited nodes, over the graph of all attack edges plus all
support edges reversed) divided by the total argument count; in
particular it returns `0` when there are no attack or support edges, and
`1/2` for a 2-argument set with attack edges `A→B` and `B→A`. -/
theorem compute_circularity_counts_cycle_roots {α : Type} [DecidableEq α]
    (args : List α) (attack_relations support_relations : List (α × α)) (h : args ≠ []) :
    compute_circularity args attack_relations support_relations
      = Except.map (fun c => (c : ℚ) / (args.length : ℚ))
          (cycleRootCount args attack_relations support_relations)
    ∧ compute_circularity args ([] : List (α × α)) ([] : List (α × α)) = Except.ok 0
    ∧ compute_circularity ["A", "B"] [("A", "B"), ("B", "A")] ([] : List (String × String))
        = Except.ok (1 / 2) := by
  have hlen : args.length ≠ 0 := fun hl => h (List.length_eq_zero.mp hl)
  refine ⟨?_, ?_, rfl⟩
  · unfold compute_circularity cycleRootCount
    cases buildAF args attack_relations support_relations with
    | error e => rfl
    | ok af => simp [Except.map, hlen]
  · unfold compute_circularity
    have hb : buildAF args ([] : List (α × α)) ([] : List (α × α))
        = Except.ok (fun _ => []) := rfl
    rw [hb]
    simp only [circScore_nilAf]
    simp [hlen]

/-- Claim C1 witness: the characterization evaluated on the concrete
2-argument attack cycle. -/
theorem compute_circularity_counts_cycle_roots_witness :
    (["A", "B"] : List String) ≠ []
    ∧ compute_circularity ["A", "B"] [("A", "B"), ("B", "A")] ([] : List (String × String))
        = Except.map (fun c => (c : ℚ) / (2 : ℚ))
            (cycleRootCount ["A", "B"] [("A", "B"), ("B", "A")] ([] : List (String × String))) :=
  ⟨by decide,
    (compute_circularity_counts_cycle_roots ["A", "B"] [("A", "B"), ("B", "A")]
      ([] : List (String × String)) (by decide)).1⟩

/-- Claim C5: the code reaches `score / num_nodes` with `num_nodes = 0` on
an empty argument list, which in Python raises an unguarded
`ZeroDivisionError`; there is no explicit guard and no `DomainError`. -/
theorem compute_circularity_empty_zero_division :
    compute_circularity ([] : List String) [] [] = Except.error PyErr.zeroDivisionError := rfl

/-- Claim C7: a support pair `(supported = A, supporter = B)` contributes
the edge `A → B`, so together with the attack edge `B → A` the metric
computes the same score as on the direct attack cycle `A → B, B → A`,
for every argument list and every pair of identifiers. -/
theorem compute_circularity_support_reversal {α : Type} [DecidableEq α]
    (args : List α) (A B : α) :
    compute_circularity args [(B, A)] [(A, B)]
      = compute_circularity args [(A, B), (B, A)] [] := by
  unfold compute_circularity
  rw [buildAF_swap]

/-- The `is_yhat_attacked` flag comes out `true` whenever it starts `true`
or some attack pair has its attacked member in `args_y_hat`. -/
theorem buildAttacks_flag {α : Type} [DecidableEq α] {args args_y_hat : List α} :
    ∀ {rel : List (α × α)} {st : (Nat → List Nat) × Bool} {af : Nat → List Nat} {flag : Bool},
      buildAttacks args args_y_hat rel st = Except.ok (af, flag) →
      (st.2 = true ∨ ∃ p ∈ rel, p.2 ∈ args_y_hat) → flag = true := by
  intro rel
  induction rel with
  | nil =>
    intro st af flag h hor
    cases h
    rcases hor with h1 | ⟨p, hp, _⟩
    · exact h1
    · cases hp
  | cons p rest ih =>
    intro st af flag h hor
    unfold buildAttacks at h
    cases haa : addAttack args args_y_hat st p with
    | error e => rw [haa] at h; cases h
    | ok st' =>
      rw [haa] at h
      have hst' : st'.2 = (st.2 || decide (p.2 ∈ args_y_hat)) := by
        unfold addAttack at haa
        split at haa
        · cases haa; rfl
        · cases haa
        · cases haa
      refine ih h ?_
      rcases hor with h1 | ⟨q, hq, hq2⟩
      · left; rw [hst', h1]; rfl
      · rcases List.mem_cons.mp hq with rfl | hq'
        · left; rw [hst']; simp [hq2]
        · exact Or.inr ⟨q, hq', hq2⟩

/-- When every attack pair references identifiers present in `args`, the
indexing loop succeeds and the flag is the disjunction over the pairs of
membership of the attacked member in `args_y_hat`. -/
theorem buildAttacks_valid {α : Type} [DecidableEq α] {args args_y_hat : List α} :
    ∀ {rel : List (α × α)}, (∀ p ∈ rel, p.1 ∈ args ∧ p.2 ∈ args) →
      ∀ st : (Nat → List Nat) × Bool, ∃ af,
        buildAttacks args args_y_hat rel st
          = Except.ok (af, st.2 || rel.any (fun p => decide (p.2 ∈ args_y_hat))) := by
  intro rel
  induction rel with
  | nil => exact fun _ st => ⟨st.1, by simp [buildAttacks]⟩
  | cons p rest ih =>
    intro hvalid st
    obtain ⟨i, hi⟩ := pyIndex_mem (hvalid p (List.mem_cons_self p rest)).1
    obtain ⟨j, hj⟩ := pyIndex_mem (hvalid p (List.mem_cons_self p rest)).2
    have hrest : ∀ q ∈ rest, q.1 ∈ args ∧ q.2 ∈ args :=
      fun q hq => hvalid q (List.mem_cons_of_mem p hq)
    obtain ⟨af, haf⟩ := ih hrest (afAppend st.1 j i, st.2 || decide (p.2 ∈ args_y_hat))
    refine ⟨af, ?_⟩
    unfold buildAttacks addAttack
    rw [hj, hi]
    simp only [haf]
    simp [Bool.or_assoc]

/-- A pair with an endpoint missing from `args` makes the indexing loop
fail with `ValueError`. -/
theorem buildAttacks_invalid {α : Type} [DecidableEq α] {args args_y_hat : List α} :
    ∀ {rel : List (α × α)}, (∃ p ∈ rel, p.1 ∉ args ∨ p.2 ∉ args) →
      ∀ st : (Nat → List Nat) × Bool,
        buildAttacks args args_y_hat rel st = Except.error PyErr.valueError := by
  intro rel
  induction rel with
  | nil => rintro ⟨p, hp, _⟩; cases hp
  | cons p rest ih =>
    rintro ⟨q, hq, hbad⟩ st
    by_cases h2 : p.2 ∈ args
    · obtain ⟨j, hj⟩ := pyIndex_mem h2
      by_cases h1 : p.1 ∈ args
      · obtain ⟨i, hi⟩ := pyIndex_mem h1
        have hq' : q ∈ rest := by
          rcases List.mem_cons.mp hq with rfl | h
          · rcases hbad with hb | hb
            · exact absurd h1 hb
            · exact absurd h2 hb
          · exact h
        unfold buildAttacks addAttack
        rw [hj, hi]
        exact ih ⟨q, hq', hbad⟩ _
      · unfold buildAttacks addAttack
        rw [hj, pyIndex_not_mem h1]
    · unfold buildAttacks addAttack
      rw [pyIndex_not_mem h2]
      cases pyIndex args p.1 <;> rfl

/-- An entry of `args_y_hat` missing from `args` makes the score loop fail
with `ValueError`. -/
theorem accScore_invalid {α : Type} [DecidableEq α] {args : List α} {af : Nat → List Nat} :
    ∀ {l : List α}, (∃ a ∈ l, a ∉ args) →
      ∀ acc : ℚ, accScore args af l acc = Except.error PyErr.valueError := by
  intro l
  induction l with
  | nil => rintro ⟨a, ha, _⟩; cases ha
  | cons a rest ih =>
    rintro ⟨b, hb, hbad⟩ acc
    by_cases ha : a ∈ args
    · obtain ⟨i, hi⟩ := pyIndex_mem ha
      have hb' : b ∈ rest := by
        rcases List.mem_cons.mp hb with rfl | h
        · exact absurd ha hbad
        · exact h
      unfold accScore
      rw [hi]
      exact ih ⟨b, hb', hbad⟩ _
    · unfold accScore
      rw [pyIndex_not_mem ha]

/-- The running-sum loop over `args_y_hat` computes the sum of the local
scores, offset by its accumulator. -/
theorem accScore_eq_localScores {α : Type} [DecidableEq α] (args : List α)
    (af : Nat → List Nat) :
    ∀ (l : List α) (acc : ℚ),
      accScore args af l acc
        = Except.map (fun ls => acc + ls.sum) (localScores args af l) := by
  intro l
  induction l with
  | nil => intro acc; simp [accScore, localScores, Except.map]
  | cons a rest ih =>
    intro acc
    cases hi : pyIndex args a with
    | error e => simp [accScore, localScores, hi, Except.map]
    | ok i =>
      simp only [accScore, localScores, hi]
      rw [ih]
      cases hr : localScores args af rest with
      | error e => simp [Except.map]
      | ok ls => simp [Except.map, add_assoc]

/-- Claim C2: on a non-empty argument list whose `args_y_hat` has at least
one attacked member, `compute_dialectical_acceptability` computes the sum
over `args_y_hat` of the local scores — `1` for an argument with no
attackers, otherwise the fraction of its attackers that themselves have
at least one attacker — divided by the TOTAL argument count. -/
theorem compute_dialectical_acceptability_matches_spec {α : Type} [DecidableEq α]
    (args : List α) (attack_relations : List (α × α)) (args_y_hat : List α)
    (h1 : args ≠ []) (h2 : ∃ p ∈ attack_relations, p.2 ∈ args_y_hat) :
    compute_dialectical_acceptability args attack_relations args_y_hat
      = acceptabilitySpec args attack_relations args_y_hat := by
  unfold compute_dialectical_acceptability acceptabilitySpec
  cases hb : buildAttacks args args_y_hat attack_relations ((fun _ => []), false) with
  | error e => rfl
  | ok st =>
    obtain ⟨af, flag⟩ := st
    have hflag : flag = true := buildAttacks_flag hb (Or.inr h2)
    subst hflag
    simp only [if_true]
    rw [accScore_eq_localScores]
    cases hl : localScores args af args_y_hat with
    | error e => rfl
    | ok ls => simp [Except.map]

/-- Claim C2 witness: the characterization evaluated on a 2-argument
instance with an attacked `args_y_hat` member. -/
theorem compute_dialectical_acceptability_matches_spec_witness :
    (["A", "B"] : List String) ≠ []
    ∧ compute_dialectical_acceptability ["A", "B"] [("B", "A")] ["A"]
        = acceptabilitySpec ["A", "B"] [("B", "A")] ["A"] :=
  ⟨by decide,
    compute_dialectical_acceptability_matches_spec ["A", "B"] [("B", "A")] ["A"]
      (by decide) ⟨("B", "A"), by decide, by decide⟩⟩

/-- Claim C8: when no argument of `args_y_hat` is the attacked member of
any attack pair (and the pairs reference known identifiers), the metric
returns exactly `1`, whatever the total argument count and whatever
attacks exist on arguments outside `args_y_hat`. -/
theorem compute_dialectical_acceptability_unattacked {α : Type} [DecidableEq α]
    (args : List α) (attack_relations : List (α × α)) (args_y_hat : List α)
    (hvalid : ∀ p ∈ attack_relations, p.1 ∈ args ∧ p.2 ∈ args)
    (hnone : ∀ p ∈ attack_relations, p.2 ∉ args_y_hat) :
    compute_dialectical_acceptability args attack_relations args_y_hat = Except.ok 1 := by
  obtain ⟨af, haf⟩ := buildAttacks_valid hvalid ((fun _ => []), false)
  have hany : attack_relations.any (fun p => decide (p.2 ∈ args_y_hat)) = false := by
    rw [List.any_eq_false]
    intro p hp
    simp [hnone p hp]
  unfold compute_dialectical_acceptability
  rw [haf, hany]
  rfl

/-- Claim C8 witness: three arguments, an attack on an argument outside
`args_y_hat`, score exactly `1`. -/
theorem compute_dialectical_acceptability_unattacked_witness :
    compute_dialectical_acceptability ["A", "B", "C"] [("A", "B")] ["A"] = Except.ok 1 :=
  compute_dialectical_acceptability_unattacked ["A", "B", "C"] [("A", "B")] ["A"]
    (by decide) (by decide)

/-- Claim C6 counterexample: `args_y_hat = ["Z"]` references an identifier
absent from `args = ["A"]`, yet with no attack pairs the function returns
`1` without raising anything: the unknown identifier is silently skipped,
refuting the claim that such an input always fails with a `LookupError`. -/
theorem compute_dialectical_acceptability_no_lookup_error :
    (("Z" : String) ∈ (["Z"] : List String) ∧ ("Z" : String) ∉ (["A"] : List String))
    ∧ compute_dialectical_acceptability ["A"] ([] : List (String × String)) ["Z"]
        = Except.ok 1 :=
  ⟨by decide, rfl⟩

/-- Claim C6 amended: an unknown identifier in an attack pair always fails
with Python's `ValueError` (which is not a `LookupError`); an unknown
identifier in `args_y_hat` fails with `ValueError` only when some
`args_y_hat` member is attacked — otherwise it is silently ignored. -/
theorem compute_dialectical_acceptability_value_error {α : Type} [DecidableEq α]
    (args : List α) (attack_relations : List (α × α)) (args_y_hat : List α) :
    ((∃ p ∈ attack_relations, p.1 ∉ args ∨ p.2 ∉ args) →
      compute_dialectical_acceptability args attack_relations args_y_hat
        = Except.error PyErr.valueError)
    ∧ ((∀ p ∈ attack_relations, p.1 ∈ args ∧ p.2 ∈ args) →
       (∃ p ∈ attack_relations, p.2 ∈ args_y_hat) →
       (∃ a ∈ args_y_hat, a ∉ args) →
      compute_dialectical_acceptability args attack_relations args_y_hat
        = Except.error PyErr.valueError) := by
  constructor
  · intro hbad
    unfold compute_dialectical_acceptability
    rw [buildAttacks_invalid hbad]
  · intro hvalid hatt hmiss
    obtain ⟨af, haf⟩ := buildAttacks_valid hvalid ((fun _ => []), false)
    have hany : attack_relations.any (fun p => decide (p.2 ∈ args_y_hat)) = true := by
      rw [List.any_eq_true]
      obtain ⟨p, hp, hp2⟩ := hatt
      exact ⟨p, hp, by simp [hp2]⟩
    unfold compute_dialectical_acceptability
    rw [haf, hany]
    simp only [Bool.false_or, if_true]
    rw [accScore_invalid hmiss]

/-- Claim C6 amended witness: a concrete unknown attacker identifier and a
concrete unknown `args_y_hat` identifier both produce `ValueError`. -/
theorem compute_dialectical_acceptability_value_error_witness :
    compute_dialectical_acceptability ["A"] [("Z", "A")] (["A"] : List String)
        = Except.error PyErr.valueError
    ∧ compute_dialectical_acceptability ["A", "B"] [("B", "A")] ["A", "Z"]
        = Except.error PyErr.valueError :=
  ⟨(compute_dialectical_acceptability_value_error ["A"] [("Z", "A")] ["A"]).1
      ⟨("Z", "A"), by decide, Or.inl (by decide)⟩,
    (compute_dialectical_acceptability_value_error ["A", "B"] [("B", "A")] ["A", "Z"]).2
      (by decide) ⟨("B", "A"), by decide, by decide⟩ ⟨"Z", by decide, by decide⟩⟩

theorem ite_all_eq_true {P : Prop} [Decidable P] {b : Bool} :
    ((if P then b else true) = true) ↔ (P → b = true) := by
  by_cases h : P <;> simp [h]

/-- Claim C3: at the top confidence tier the result is `true` iff no
attacker of any argument for the predicted label has strength `≥` that
argument's strength; at the high tier the bound is strict `>`; hence on
input where an attacker's strength equals the attacked argument's
strength the top tier answers `false` while the high tier answers
`true`. -/
theorem compute_dialectical_faithfulness_top_high {α : Type} [DecidableEq α]
    (args : List (Argument α)) (attack_relations support_relations : List (α × α))
    (args_y_hat : List (Argument α)) (top_confidence high_confidence : ℚ)
    (model_predicted_label : String) (model_confidence : ℚ) :
    (top_confidence ≤ model_confidence →
      (compute_dialectical_faithfulness args attack_relations support_relations args_y_hat
          top_confidence high_confidence model_predicted_label model_confidence = true ↔
        ∀ arg ∈ get_arguments_for_conclusion args_y_hat model_predicted_label,
          ∀ attacker ∈ get_attackers args attack_relations arg.id,
            ¬ (get_dialectical_strength attacker ≥ get_dialectical_strength arg)))
    ∧ (high_confidence ≤ model_confidence → model_confidence < top_confidence →
      (compute_dialectical_faithfulness args attack_relations support_relations args_y_hat
          top_confidence high_confidence model_predicted_label model_confidence = true ↔
        ∀ arg ∈ get_arguments_for_conclusion args_y_hat model_predicted_label,
          ∀ attacker ∈ get_attackers args attack_relations arg.id,
            ¬ (get_dialectical_strength attacker > get_dialectical_strength arg)))
    ∧ (compute_dialectical_faithfulness
          [⟨"a", "L", 1⟩, ⟨"b", "M", 1⟩] [("b", "a")] [] [⟨"a", "L", 1⟩] 2 0 "L" 2 = false
       ∧ compute_dialectical_faithfulness
          [⟨"a", "L", 1⟩, ⟨"b", "M", 1⟩] [("b", "a")] [] [⟨"a", "L", 1⟩] 2 1 "L" 1 = true) := by
  refine ⟨?_, ?_, by decide, by decide⟩
  · intro htop
    simp only [compute_dialectical_faithfulness]
    rw [if_pos htop]
    simp [List.all_eq_true, get_arguments_for_conclusion]
    constructor
    · intro h arg harg hconc attacker hatk
      rcases h arg harg with hnc | hall
      · exact absurd hconc hnc
      · exact hall attacker hatk
    · intro h x hx
      by_cases hc : x.conclusion = model_predicted_label
      · exact Or.inr (fun a ha => h x hx hc a ha)
      · exact Or.inl hc
  · intro hhigh hlt
    simp only [compute_dialectical_faithfulness]
    rw [if_neg (not_le.mpr hlt), if_pos hhigh]
    simp [List.all_eq_true, get_arguments_for_conclusion]
    constructor
    · intro h arg harg hconc attacker hatk
      rcases h arg harg with hnc | hall
      · exact absurd hconc hnc
      · exact hall attacker hatk
    · intro h x hx
      by_cases hc : x.conclusion = model_predicted_label
      · exact Or.inr (fun a ha => h x hx hc a ha)
      · exact Or.inl hc

/-- Claim C3 witness: both tier characterizations applied at the concrete
equal-strength instance. -/
theorem compute_dialectical_faithfulness_top_high_witness :
    ((2 : ℚ) ≤ 2
      ∧ (compute_dialectical_faithfulness
            [⟨"a", "L", 1⟩, ⟨"b", "M", 1⟩] [("b", "a")] [] [⟨"a", "L", 1⟩] 2 0 "L" 2 = true ↔
          ∀ arg ∈ get_arguments_for_conclusion [(⟨"a", "L", 1⟩ : Argument String)] "L",
            ∀ attacker ∈ get_attackers [⟨"a", "L", 1⟩, ⟨"b", "M", 1⟩] [("b", "a")] arg.id,
              ¬ (get_dialectical_strength attacker ≥ get_dialectical_strength arg)))
    ∧ ((1 : ℚ) ≤ 1 ∧ (1 : ℚ) < 2
      ∧ (compute_dialectical_faithfulness
            [⟨"a", "L", 1⟩, ⟨"b", "M", 1⟩] [("b", "a")] [] [⟨"a", "L", 1⟩] 2 1 "L" 1 = true ↔
          ∀ arg ∈ get_arguments_for_conclusion [(⟨"a", "L", 1⟩ : Argument String)] "L",
            ∀ attacker ∈ get_attackers [⟨"a", "L", 1⟩, ⟨"b", "M", 1⟩] [("b", "a")] arg.id,
              ¬ (get_dialectical_strength attacker > get_dialectical_strength arg))) :=
  ⟨⟨by norm_num,
      (compute_dialectical_faithfulness_top_high
        [⟨"a", "L", 1⟩, ⟨"b", "M", 1⟩] [("b", "a")] [] [⟨"a", "L", 1⟩] 2 0 "L" 2).1
        (by norm_num)⟩,
    by norm_num, by norm_num,
    (compute_dialectical_faithfulness_top_high
        [⟨"a", "L", 1⟩, ⟨"b", "M", 1⟩] [("b", "a")] [] [⟨"a", "L", 1⟩] 2 1 "L" 1).2.1
        (by norm_num) (by norm_num)⟩

/-- Claim C4: at the low confidence tier (below both thresholds) only
arguments for the predicted label with strength strictly above `1/2` are
checked, and the result is `false` iff some checked argument has an
attacker of strength `≤` its own; an argument of strength exactly `1/2`
is exempt regardless of its attackers. -/
theorem compute_dialectical_faithfulness_low {α : Type} [DecidableEq α]
    (args : List (Argument α)) (attack_relations support_relations : List (α × α))
    (args_y_hat : List (Argument α)) (top_confidence high_confidence : ℚ)
    (model_predicted_label : String) (model_confidence : ℚ)
    (hth : high_confidence ≤ top_confidence) (hconf : model_confidence < high_confidence) :
    (compute_dialectical_faithfulness args attack_relations support_relations args_y_hat
        top_confidence high_confidence model_predicted_label model_confidence = false ↔
      ∃ arg ∈ get_arguments_for_conclusion args_y_hat model_predicted_label,
        get_dialectical_strength arg > 1 / 2 ∧
        ∃ attacker ∈ get_attackers args attack_relations arg.id,
          get_dialectical_strength attacker ≤ get_dialectical_strength arg)
    ∧ compute_dialectical_faithfulness
        [⟨"a", "L", 1 / 2⟩, ⟨"b", "M", 1 / 2⟩] [("b", "a")] [] [⟨"a", "L", 1 / 2⟩]
        top_confidence high_confidence "L" model_confidence = true := by
  have h1 : ¬ (top_confidence ≤ model_confidence) :=
    not_le.mpr (lt_of_lt_of_le hconf hth)
  have h2 : ¬ (high_confidence ≤ model_confidence) := not_le.mpr hconf
  constructor
  · simp only [compute_dialectical_faithfulness]
    rw [if_neg h1, if_neg h2, ← Bool.not_eq_true]
    rw [List.all_eq_true]
    simp only [ite_all_eq_true, List.all_eq_true, Bool.not_eq_true', decide_eq_false_iff_not,
      get_arguments_for_conclusion]
    push_neg
    simp [not_lt, not_le]
  · simp only [compute_dialectical_faithfulness]
    rw [if_neg h1, if_neg h2]
    simp [get_dialectical_strength, get_arguments_for_conclusion, lt_irrefl]

/-- Claim C4 witness: the low-tier characterization at a concrete input
where an equal-strength attacker attacks an argument of strength exactly
`1/2`, which is exempt. -/
theorem compute_dialectical_faithfulness_low_witness :
    (1 : ℚ) ≤ 2 ∧ (0 : ℚ) < 1
    ∧ compute_dialectical_faithfulness
        [⟨"a", "L", 1 / 2⟩, ⟨"b", "M", 1 / 2⟩] [("b", "a")] [] [⟨"a", "L", 1 / 2⟩]
        2 1 "L" 0 = true :=
  ⟨by norm_num, by norm_num,
    (compute_dialectical_faithfulness_low
      [⟨"a", "L", 1 / 2⟩, ⟨"b", "M", 1 / 2⟩] [("b", "a")] [] [⟨"a", "L", 1 / 2⟩]
      2 1 "L" 0 (by norm_num) (by norm_num)).2⟩

/-- Claim C9: the result of `compute_dialectical_faithfulness` never
depends on `support_relations`: two calls differing only there return the
same boolean. -/
theorem compute_dialectical_faithfulness_ignores_support {α : Type} [DecidableEq α]
    (args : List (Argument α)) (attack_relations s1 s2 : List (α × α))
    (args_y_hat : List (Argument α)) (top_confidence high_confidence : ℚ)
    (model_predicted_label : String) (model_confidence : ℚ) :
    compute_dialectical_faithfulness args attack_relations s1 args_y_hat
        top_confidence high_confidence model_predicted_label model_confidence
      = compute_dialectical_faithfulness args attack_relations s2 args_y_hat
        top_confidence high_confidence model_predicted_label model_confidence := rfl

/-- Claim C10: `get_attackers` returns a sublist of `args` (each argument
at most once, in `args` order) and is unchanged by duplicating an attack
pair, while `compute_dialectical_acceptability` counts a duplicated
attack pair separately: duplicating `("C", "A")` leaves `get_attackers`
unchanged but moves the acceptability score from `1/6` to `1/9`. -/
theorem get_attackers_no_duplicates {α : Type} [DecidableEq α]
    (args : List (Argument α)) (attack_relations : List (α × α)) (e : α × α) (arg_id : α) :
    (get_attackers args attack_relations arg_id).Sublist args
    ∧ get_attackers args (e :: e :: attack_relations) arg_id
        = get_attackers args (e :: attack_relations) arg_id
    ∧ (compute_dialectical_acceptability ["A", "B", "C"]
          [("B", "A"), ("C", "A"), ("C", "B")] ["A"] = Except.ok (1 / 6)
       ∧ compute_dialectical_acceptability ["A", "B", "C"]
          [("C", "A"), ("B", "A"), ("C", "A"), ("C", "B")] ["A"] = Except.ok (1 / 9)
       ∧ get_attackers [⟨"A", "L", 1⟩, ⟨"B", "L", 1⟩, ⟨"C", "L", 1⟩]
            [("C", "A"), ("B", "A"), ("C", "A"), ("C", "B")] "A"
          = get_attackers [⟨"A", "L", 1⟩, ⟨"B", "L", 1⟩, ⟨"C", "L", 1⟩]
            [("B", "A"), ("C", "A"), ("C", "B")] "A") := by
  refine ⟨List.filter_sublist args, ?_, ?_, ?_, by decide⟩
  · unfold get_attackers
    apply List.filter_congr
    intro x _
    apply decide_eq_decide.mpr
    simp [List.mem_cons, or_self_left]
  · have h : compute_dialectical_acceptability ["A", "B", "C"]
        [("B", "A"), ("C", "A"), ("C", "B")] ["A"]
        = Except.ok ((0 + ((1 : Nat) : ℚ) / ((2 : Nat) : ℚ)) / ((3 : Nat) : ℚ)) := rfl
    exact h.trans (okCongr (by push_cast; norm_num))
  · have h : compute_dialectical_acceptability ["A", "B", "C"]
        [("C", "A"), ("B", "A"), ("C", "A"), ("C", "B")] ["A"]
        = Except.ok ((0 + ((1 : Nat) : ℚ) / ((3 : Nat) : ℚ)) / ((3 : Nat) : ℚ)) := rfl
    exact h.trans (okCongr (by push_cast; norm_num))
